import Mathlib

/-! Verification of the batch source-mutation scripts of businessmap-mcp.

The Python sources are shallowly embedded over `List Char`:
* `scripts/update-schemas.py`  — depth-counting schema updater
  (`has_instance_import`, `add_instance_import`, `add_instance_to_schema`,
  `update_schema_file`, `main`);
* `update-all-schemas.py`      — regex-driven schema updater
  (`update_schema_file`, embedded as `updateSchemaFileRegex`);
* `update-all-tools.py`        — handler rewriters
  (`fix_handler`, `fix_params_handler`).

Python strings are `List Char`; the newline split is `splitLines`;
the newline join is `joinLines`; the substring test `in` is `containsStr`;
`str.replace` is `replaceAll` (leftmost, non-overlapping, replace all).
The concrete regular expressions used by the scripts are deterministic
(every greedy sub-pattern is followed by a token its character class
excludes), so each is embedded as an explicit scanner: `matchR1At`,
`matchR2At`, `matchR3At`, `matchCallAt`; `re.search` is the `search*`
functions (leftmost match), `re.sub` the `sub*` functions (all
non-overlapping matches, left to right).  Replacement strings are taken
literally, as none of the replacement texts in the scripts contains regex
escape sequences for the inputs considered.
-/

set_option maxRecDepth 20000

abbrev Str := List Char

/-- Python whitespace characters used by the strip method (ASCII part). -/
def pyIsSpace (c : Char) : Bool :=
  c = ' ' || c = '\t' || c = '\n' || c = '\r' || c = '\x0b' || c = '\x0c'

/-- Python `\w` word characters (ASCII): letters, digits, underscore. -/
def isWordChar (c : Char) : Bool := c.isAlphanum || c = '_'

/-- Python strip (both ends). -/
def pyStrip (s : Str) : Str :=
  ((s.dropWhile pyIsSpace).reverse.dropWhile pyIsSpace).reverse

/-- Python rstrip of closing braces. -/
def pyRstripBrace (s : Str) : Str :=
  (s.reverse.dropWhile (fun c => c = '\x7d')).reverse

/-- Boolean prefix test. -/
def pfx : Str → Str → Bool
  | [], _ => true
  | _ :: _, [] => false
  | a :: as, b :: bs => if a = b then pfx as bs else false

/-- Python substring test `pat in s`. -/
def containsStr (pat : Str) : Str → Bool
  | [] => pat.isEmpty
  | c :: rest => pfx pat (c :: rest) || containsStr pat rest

/-- Number of positions of `s` at which `pat` starts. -/
def countOcc (pat : Str) (s : Str) : Nat :=
  ((List.range (s.length + 1)).filter (fun i => pfx pat (s.drop i))).length

/-- Python split of the content on newline characters. -/
def splitLines : Str → List Str
  | [] => [[]]
  | c :: rest =>
    if c = '\n' then [] :: splitLines rest
    else
      match splitLines rest with
      | [] => [[c]]
      | l :: ls => (c :: l) :: ls

/-- Python newline join of the lines. -/
def joinLines : List Str → Str
  | [] => []
  | [l] => l
  | l :: l2 :: ls => l ++ '\n' :: joinLines (l2 :: ls)

/-- Strip a literal from the front, if present. -/
def dropLit (lit : Str) (s : Str) : Option Str :=
  if pfx lit s then some (s.drop lit.length) else none

/-- Fuelled worker for Python `str.replace` (leftmost, non-overlapping,
all occurrences).  The fuel is the length of the scanned string; every
step consumes at least one character whenever `pat` is nonempty, which
holds at all use sites. -/
def replaceAllF (pat repl : Str) : Nat → Str → Str
  | _, [] => []
  | 0, s => s
  | n + 1, c :: rest =>
    if pfx pat (c :: rest) then repl ++ replaceAllF pat repl n ((c :: rest).drop pat.length)
    else c :: replaceAllF pat repl n rest

/-- Python replace of pat by repl in s. -/
def replaceAll (pat repl s : Str) : Str := replaceAllF pat repl s.length s

/-! Section: Embedding of `scripts/update-schemas.py` -/

/-- Class of characters other than a closing brace, used by the import
regex and by `z.object` bodies. -/
def isNotCloseBrace (c : Char) : Bool := if c = '\x7d' then false else true

/-- Class of characters that are not quotes, used by the generic-import
regex. -/
def isNotQuote (c : Char) : Bool :=
  if c = '\x27' then false else if c = '"' then false else true

def litImport : Str := "import".data

def litFrom : Str := "from".data

def litPath : Str := "./common-schemas.js".data

def spec1 : Str := "from \x27./common-schemas.js\x27".data

def spec2 : Str := "from \"./common-schemas.js\"".data

def symbolStr : Str := "instanceParameterSchema".data

def marker3 : Str := "...instanceParameterSchema".data

/-- Pattern of one or more whitespace characters, consumed greedily. -/
def spaces1 (s : Str) : Option Str :=
  match s with
  | [] => none
  | c :: rest => if pyIsSpace c then some ((c :: rest).dropWhile pyIsSpace) else none

/-- Match of regex `import\s*\x7b([^\x7d]+)\x7d\s*from\s*[\x27"]\.\/common-schemas\.js[\x27"];`
at the start of `s`; on success returns (group 1, rest of the text after
the match).  Each greedy sub-pattern is followed by a token excluded from
its class, so the regex is deterministic and backtracking-free. -/
def matchR1At (s : Str) : Option (Str × Str) :=
  match dropLit litImport s with
  | none => none
  | some s1 =>
    let s2 := s1.dropWhile pyIsSpace
    match dropLit "\x7b".data s2 with
    | none => none
    | some s3 =>
      let g := s3.takeWhile isNotCloseBrace
      if g.isEmpty then none else
      match dropLit "\x7d".data (s3.drop g.length) with
      | none => none
      | some s5 =>
        let s6 := s5.dropWhile pyIsSpace
        match dropLit litFrom s6 with
        | none => none
        | some s7 =>
          match s7.dropWhile pyIsSpace with
          | [] => none
          | q :: s9 =>
            if q = '\x27' ∨ q = '"' then
              match dropLit litPath s9 with
              | none => none
              | some s10 =>
                match s10 with
                | [] => none
                | q2 :: s11 =>
                  if q2 = '\x27' ∨ q2 = '"' then
                    match dropLit ";".data s11 with
                    | none => none
                    | some s12 => some (g, s12)
                  else none
            else none

/-- Search for the common-schemas import regex: group 1 of the
leftmost match. -/
def searchR1 : Str → Option Str
  | [] => none
  | c :: rest =>
    match matchR1At (c :: rest) with
    | some (g, _) => some g
    | none => searchR1 rest

/-- Substitution for the common-schemas import regex with a fixed
replacement string (fuelled; every match consumes at least six literal
characters). -/
def subAllR1F (repl : Str) : Nat → Str → Str
  | _, [] => []
  | 0, s => s
  | n + 1, c :: rest =>
    match matchR1At (c :: rest) with
    | some (_, after) => repl ++ subAllR1F repl n after
    | none => c :: subAllR1F repl n rest

/-- The replacement text built by `add_instance_import` from group 1 of
the first match. -/
def mkReplR1 (g : Str) : Str :=
  "import \x7b ".data ++ pyStrip g ++ ", instanceParameterSchema \x7d from \x27./common-schemas.js\x27;".data

/-- Match of regex `import\s+\x7b[^\x7d]+\x7d\s+from\s+[\x27"][^\x27"]+[\x27"];`
at the start of `s`; on success returns (whole matched text, rest). -/
def matchR2At (s : Str) : Option (Str × Str) :=
  match dropLit litImport s with
  | none => none
  | some s1 =>
    match spaces1 s1 with
    | none => none
    | some s2 =>
      match dropLit "\x7b".data s2 with
      | none => none
      | some s3 =>
        let g := s3.takeWhile isNotCloseBrace
        if g.isEmpty then none else
        match dropLit "\x7d".data (s3.drop g.length) with
        | none => none
        | some s5 =>
          match spaces1 s5 with
          | none => none
          | some s6 =>
            match dropLit litFrom s6 with
            | none => none
            | some s7 =>
              match spaces1 s7 with
              | none => none
              | some s8 =>
                match s8 with
                | [] => none
                | q :: s9 =>
                  if q = '\x27' ∨ q = '"' then
                    let t := s9.takeWhile isNotQuote
                    if t.isEmpty then none else
                    match s9.drop t.length with
                    | [] => none
                    | q2 :: s11 =>
                      if q2 = '\x27' ∨ q2 = '"' then
                        match dropLit ";".data s11 with
                        | none => none
                        | some s12 => some (litImport ++ s1.take (s1.length - s12.length), s12)
                      else none
                  else none

/-- Search for the generic braced-import regex: the whole text of the
leftmost match. -/
def searchR2 : Str → Option Str
  | [] => none
  | c :: rest =>
    match matchR2At (c :: rest) with
    | some (m, _) => some m
    | none => searchR2 rest

def newImportLine : Str :=
  "import \x7b instanceParameterSchema \x7d from \x27./common-schemas.js\x27;".data

/-- Function embedding the marker check of `scripts/update-schemas.py`. -/
def has_instance_import (c : Str) : Bool := containsStr symbolStr c

/-- Function embedding the import augmenter of
`scripts/update-schemas.py`. -/
def add_instance_import (c : Str) : Str :=
  if containsStr spec1 c || containsStr spec2 c then
    match searchR1 c with
    | some g =>
      if containsStr symbolStr (pyStrip g) then c
      else subAllR1F (mkReplR1 g) c.length c
    | none => c
  else
    match searchR2 c with
    | some m => replaceAll m (m ++ '\n' :: newImportLine) c
    | none => c

def objOpen : Str := "z.object(\x7b".data

def closeTok : Str := "\x7d);".data

def markerLine : Str := "  ...instanceParameterSchema,".data

def insTok : Str := "  ...instanceParameterSchema,\n\x7d);".data

/-- Count of opening braces minus count of closing braces in a line, as
used by the schema scan. -/
def braceDelta (l : Str) : Int :=
  (l.count '\x7b' : Int) - (l.count '\x7d' : Int)

/-- The per-line loop of `add_instance_to_schema`.  Arguments after the
full `lines` list: the remaining lines, the current index `i`, and the
loop state `in_schema`, `brace_count`, `schema_start` (the Python
sentinel `-1` for `schema_start` is irrelevant: the value is only read
while `in_schema` is true, after it has been set). -/
def addSchemaAux (lines : List Str) : List Str → Nat → Bool → Int → Nat → List Str
  | [], _, _, _, _ => []
  | line :: rest, i, inS, bc, st =>
    if containsStr objOpen line = true then
      line :: addSchemaAux lines rest (i + 1) true (braceDelta line) i
    else if inS = true then
      if bc + braceDelta line = 0 ∧ containsStr closeTok line = true then
        if containsStr marker3 (joinLines ((lines.drop st).take (i + 1 - st))) = true then
          line :: addSchemaAux lines rest (i + 1) false 0 0
        else if pyStrip line = closeTok then
          markerLine :: line :: addSchemaAux lines rest (i + 1) false 0 0
        else
          replaceAll closeTok insTok line :: addSchemaAux lines rest (i + 1) false 0 0
      else
        line :: addSchemaAux lines rest (i + 1) true (bc + braceDelta line) st
    else
      line :: addSchemaAux lines rest (i + 1) false bc st

/-- Function embedding the schema injector of
`scripts/update-schemas.py`. -/
def add_instance_to_schema (c : Str) : Str :=
  joinLines (addSchemaAux (splitLines c) (splitLines c) 0 false 0 0)

/-- Instrumentation: does the scan of `add_instance_to_schema` ever take
the closing branch (depth zero and the close token in the line)?  Mirrors the
state updates of `addSchemaAux` exactly. -/
def schemaScanClosedAux : List Str → Bool → Int → Bool
  | [], _, _ => false
  | line :: rest, inS, bc =>
    if containsStr objOpen line = true then
      schemaScanClosedAux rest true (braceDelta line)
    else if inS = true then
      if bc + braceDelta line = 0 ∧ containsStr closeTok line = true then true
      else schemaScanClosedAux rest true (bc + braceDelta line)
    else
      schemaScanClosedAux rest false bc

/-- No schema declaration is ever closed by the scan: in particular every
opened declaration reaches end of file with unmatched delimiters. -/
def schemaNeverCloses (c : Str) : Bool :=
  !schemaScanClosedAux (splitLines c) false 0

/-- Instrumentation: the scan state `in_schema` at end of file.  `true`
means the last opened declaration reached EOF with depth never returning
to zero at a terminator: the UNMATCHED state of the specification. -/
def schemaScanOpenAux : List Str → Bool → Int → Bool
  | [], inS, _ => inS
  | line :: rest, inS, bc =>
    if containsStr objOpen line = true then
      schemaScanOpenAux rest true (braceDelta line)
    else if inS = true then
      if bc + braceDelta line = 0 ∧ containsStr closeTok line = true then
        schemaScanOpenAux rest false 0
      else schemaScanOpenAux rest true (bc + braceDelta line)
    else
      schemaScanOpenAux rest false bc

def schemaUnmatchedAtEof (c : Str) : Bool :=
  schemaScanOpenAux (splitLines c) false 0

/-- The in-memory pipeline of `update_schema_file` (after the file-name
skip): return unchanged if the spread marker is present, otherwise
augment the import when needed and inject into all schemas. -/
def schemaTransform (c : Str) : Str :=
  if containsStr marker3 c = true then c
  else add_instance_to_schema (if has_instance_import c then c else add_instance_import c)

/-- The console reports `scripts/update-schemas.py` can emit.
`dirMissingError` is the only error-labelled report in the script and is
emitted by `main` alone (missing schemas directory). -/
inductive SReport where
  | processing
  | skipping
  | alreadyUpdated
  | updatedSuccessfully
  | dirMissingError
deriving DecidableEq

def isErrorReport : SReport → Bool
  | .dirMissingError => true
  | _ => false

def nameCommonSchemas : Str := "common-schemas.ts".data

def nameIndexTs : Str := "index.ts".data

/-- Function embedding the per-file routine of
`scripts/update-schemas.py`: the final
on-disk content, whether the file was written back, and the reports
printed for it.  The write-back in the source is unconditional in the
non-skipped path (`filepath.write_text(content)`). -/
def update_schema_file (name c : Str) : Str × Bool × List SReport :=
  if name = nameCommonSchemas ∨ name = nameIndexTs then
    (c, false, [.processing, .skipping])
  else if containsStr marker3 c = true then
    (c, false, [.processing, .alreadyUpdated])
  else
    (add_instance_to_schema (if has_instance_import c then c else add_instance_import c),
     true, [.processing, .updatedSuccessfully])

/-- Function embedding the main routine of
`scripts/update-schemas.py`: processes every file of the
globbed list and exits; `sys.exit(1)` is reached only when the schemas
directory is missing, so the process exit status is 0 whenever the
directory exists, whatever happened to the individual files. -/
def runMain (dirExists : Bool) (files : List (Str × Str)) :
    List (Str × Bool × List SReport) × Nat :=
  if dirExists then (files.map (fun p => update_schema_file p.1 p.2), 0)
  else ([], 1)

/-! Section: Embedding of `update-all-schemas.py` -/

/-- Boolean suffix test. -/
def sfxB (pat s : Str) : Bool := pfx pat.reverse s.reverse

def litImportCheck : Str := "import \x7b instanceParameterSchema \x7d from".data

def zodLine : Str := "import \x7b z \x7d from \x27zod\x27;".data

def litExportConst : Str := "export const ".data

def litEqZObj : Str := " = z.object(\x7b".data

def litSchemaSuffix : Str := "Schema".data

/-- Match of regex `export const (\w+Schema) = z\.object\(\{([^\x7d]*)\}\);`
at the start of `s`; returns (group 1, group 2, rest).  Group 1 is the
maximal word-character run (it must end in `Schema` preceded by at least
one word character, since the next literal ` = ` is not a word
character); group 2 runs to the first closing brace, which must be
followed by `);`. -/
def matchR3At (s : Str) : Option (Str × Str × Str) :=
  match dropLit litExportConst s with
  | none => none
  | some s1 =>
    let w := s1.takeWhile isWordChar
    if sfxB litSchemaSuffix w ∧ 7 ≤ w.length then
      match dropLit litEqZObj (s1.drop w.length) with
      | none => none
      | some s2 =>
        let b := s2.takeWhile isNotCloseBrace
        match dropLit closeTok (s2.drop b.length) with
        | none => none
        | some rest => some (w, b, rest)
    else none

/-- Function embedding the replacement callback of
`update-all-schemas.py`: the replacement
text for one match, given groups 1 and 2.  Group 0 is reconstructed from
the groups, which is exact because everything around the groups in the
pattern is literal. -/
def add_instance_param (name body : Str) : Str :=
  if containsStr marker3 body || containsStr symbolStr name then
    litExportConst ++ name ++ litEqZObj ++ body ++ closeTok
  else if (pyStrip body).isEmpty then
    litExportConst ++ name ++ litEqZObj ++ '\n' :: insTok
  else
    litExportConst ++ name ++ litEqZObj ++ body ++ insTok

/-- Substitution of the schema-export pattern with `add_instance_param`
(fuelled scan, leftmost, non-overlapping). -/
def subR3F : Nat → Str → Str
  | _, [] => []
  | 0, s => s
  | n + 1, c :: rest =>
    match matchR3At (c :: rest) with
    | some (w, b, after) => add_instance_param w b ++ subR3F n after
    | none => c :: subR3F n rest

/-- The schema-pattern pass of `update-all-schemas.py` alone. -/
def regexSchemaUpdate (c : Str) : Str := subR3F c.length c

/-- Function embedding the per-file routine of
`update-all-schemas.py`: final content and
whether the file was written back (which the source does exactly when the
content changed). -/
def updateSchemaFileRegex (c : Str) : Str × Bool :=
  let c1 := if containsStr litImportCheck c then c
            else replaceAll zodLine (zodLine ++ '\n' :: newImportLine) c
  let c2 := subR3F c1.length c1
  if c2 = c then (c2, false) else (c2, true)

/-! Section: Embedding of `update-all-tools.py` -/

def litInstance : Str := "instance".data

def litGCFI : Str := "getClientForInstance".data

/-- Group 0 of the destructured-handler regex
`async \((\{[^}]*\})\) => \{\s*try \{\s*(.*?)(?=\n\s*\})`, reconstructed
from group 1 (`params`), the two whitespace spans and group 2 (`body`). -/
def mkHandlerFull (params w1 w2 body : Str) : Str :=
  "async (".data ++ params ++ ") => \x7b".data ++ w1 ++ "try \x7b".data ++ w2 ++ body

def clientCall : Str :=
  "          const client = await getClientForInstance(clientOrFactory, instance);\n          ".data

/-- Function embedding the destructured-handler rewriter of
`update-all-tools.py` (pattern 1), on the groups of one match. -/
def fix_handler (params w1 w2 body : Str) : Str :=
  if containsStr litInstance params || containsStr litGCFI body then
    mkHandlerFull params w1 w2 body
  else
    let newParams :=
      if (pyStrip params).isEmpty then "\x7b instance \x7d: any".data
      else pyRstripBrace params ++ ", instance \x7d: any".data
    "async (".data ++ newParams ++ ") => \x7b\n        try \x7b\n".data ++ clientCall ++ body

def oldHead : Str :=
  "async (params) => \x7b\n        try \x7b\n          ".data

def newHeadFull : Str :=
  "async (params: any) => \x7b\n        try \x7b\n          const \x7b instance, ...restParams \x7d = params;\n          const client = await getClientForInstance(clientOrFactory, instance);\n          ".data

/-- Match of regex `client\.(\w+)\(params\)` at the start of `s`:
(group 1, rest). -/
def matchCallAt (s : Str) : Option (Str × Str) :=
  match dropLit "client.".data s with
  | none => none
  | some s1 =>
    let m := s1.takeWhile isWordChar
    if m.isEmpty then none else
    match dropLit "(params)".data (s1.drop m.length) with
    | none => none
    | some rest => some (m, rest)

/-- Substitution of the client-call pattern, renaming the argument from
params to restParams (fuelled scan). -/
def subCallsF : Nat → Str → Str
  | _, [] => []
  | 0, s => s
  | n + 1, c :: rest =>
    match matchCallAt (c :: rest) with
    | some (m, after) =>
      "client.".data ++ m ++ "(restParams)".data ++ subCallsF n after
    | none => c :: subCallsF n rest

def subCalls (s : Str) : Str := subCallsF s.length s

/-- The text `client.<m>(params)` rewritten by the call-site pass. -/
def callText (m : Str) : Str := "client.".data ++ m ++ "(params)".data

def newCallText (m : Str) : Str := "client.".data ++ m ++ "(restParams)".data

/-- Function embedding the positional-handler rewriter of
`update-all-tools.py` (pattern 2), on the whole matched region. -/
def fix_params_handler (full : Str) : Str :=
  if containsStr litInstance full || containsStr litGCFI full then full
  else subCalls (replaceAll oldHead newHeadFull full)

/-- No match of the call-site pattern begins inside `a` when `a` is
immediately followed by `b` (checks every suffix of `a` extended by
`b`). -/
def callFreeOn : Str → Str → Bool
  | [], _ => true
  | c :: rest, b => (matchCallAt ((c :: rest) ++ b)).isNone && callFreeOn rest b

/-! Section: Embedding of `update-board-tools.py` -/

/-- Class of characters other than a newline. -/
def isNotNewline (c : Char) : Bool := if c = '\n' then false else true

/-- Literal try-open token of the board-tools handler pattern. -/
def tryOpen : Str := "try \x7b".data

/-- Match of the first board-tools pattern (positional head, whitespace,
try-open, whitespace, then a const keyword) at the start of `s`; returns
the rest after the match.  Each greedy whitespace span is followed by a
non-whitespace literal, so the regex is deterministic. -/
def matchBT1At (s : Str) : Option Str :=
  match dropLit "async (params) => \x7b".data s with
  | none => none
  | some s1 =>
    match dropLit tryOpen (s1.dropWhile pyIsSpace) with
    | none => none
    | some s2 =>
      match dropLit "const ".data (s2.dropWhile pyIsSpace) with
      | none => none
      | some rest => some rest

/-- Replacement text of the first board-tools pattern. -/
def bt1Repl : Str :=
  "async (params: any) => \x7b\n        try \x7b\n          const \x7b instance, ...restParams \x7d = params;\n          const client = await getClientForInstance(clientOrFactory, instance);\n          const ".data

/-- Substitution of the first board-tools pattern (fuelled scan,
leftmost, non-overlapping). -/
def subBT1F : Nat → Str → Str
  | _, [] => []
  | 0, s => s
  | n + 1, c :: rest =>
    match matchBT1At (c :: rest) with
    | some after => bt1Repl ++ subBT1F n after
    | none => c :: subBT1F n rest

/-- The eight literal handler-signature rewrites of
`update-board-tools.py` (the patterns escape every regex special, so each
substitution is a plain text replacement), in source order. -/
def boardPatterns : List (Str × Str) :=
  [("async (\x7b board_id, board_name, workspace_id \x7d) => \x7b".data,
    "async (\x7b board_id, board_name, workspace_id, instance \x7d: any) => \x7b".data),
   ("async (\x7b board_id \x7d) => \x7b".data,
    "async (\x7b board_id, instance \x7d: any) => \x7b".data),
   ("async (\x7b name, description, workspace_id \x7d) => \x7b".data,
    "async (\x7b name, description, workspace_id, instance \x7d: any) => \x7b".data),
   ("async (\x7b board_id, name, description \x7d) => \x7b".data,
    "async (\x7b board_id, name, description, instance \x7d: any) => \x7b".data),
   ("async (\x7b card_id, archive_first = true \x7d) => \x7b".data,
    "async (\x7b card_id, archive_first = true, instance \x7d: any) => \x7b".data),
   ("async (\x7b resource_ids, analyze_dependencies = true \x7d) => \x7b".data,
    "async (\x7b resource_ids, analyze_dependencies = true, instance \x7d: any) => \x7b".data),
   ("async (\x7b workflow_id, name, position, color, description \x7d) => \x7b".data,
    "async (\x7b workflow_id, name, position, color, description, instance \x7d: any) => \x7b".data),
   ("async (\x7b lane_id \x7d) => \x7b".data,
    "async (\x7b lane_id, instance \x7d: any) => \x7b".data)]

/-- Sequential application of literal pattern/replacement pairs. -/
def applyLitSubs : List (Str × Str) → Str → Str
  | [], c => c
  | (p, r) :: rest, c => applyLitSubs rest (replaceAll p r c)

/-- Largest start position, at most `maxIdx`, at which the try-open
literal begins in `s`: the greedy brace-free span of the handler pattern
backtracks to the last such occurrence inside the brace-free region. -/
def lastTryIndex (s : Str) (maxIdx : Nat) : Option Nat :=
  ((List.range (maxIdx + 1)).filter (fun p => pfx tryOpen (s.drop p))).getLast?

/-- Function embedding the replacement callback of the handler pass of
`update-board-tools.py`: insert the client-resolution statement after
the try-open unless the match already contains the resolver name. -/
def add_get_client (full : Str) : Str :=
  if containsStr litGCFI full then full
  else
    replaceAll ("try \x7b\n".data)
      ("try \x7b\n          const client = await getClientForInstance(clientOrFactory, instance);\n".data)
      full

/-- Match of the board-tools handler pattern at the start of `s`:
destructured head whose brace-free parameter run contains the substring
instance, then the head close, a brace-free span ending at the last
try-open of that span, the rest of that line and its newline, and an
optional already-present resolver statement; returns (group 0, rest).
Both brace-free classes cannot cross a closing brace, and each remaining
greedy span is followed by a token its class excludes, so only the
try-open position needs the backtracking rule (last occurrence). -/
def matchBT4At (s : Str) : Option (Str × Str) :=
  match dropLit "async (\x7b".data s with
  | none => none
  | some t1 =>
    let R := t1.takeWhile isNotCloseBrace
    if containsStr litInstance R then
      match dropLit "\x7d: any) => \x7b".data (t1.drop R.length) with
      | none => none
      | some t2 =>
        let F := t2.takeWhile isNotCloseBrace
        match lastTryIndex t2 F.length with
        | none => none
        | some p =>
          let t3 := t2.drop (p + tryOpen.length)
          let L := t3.takeWhile isNotNewline
          match dropLit "\n".data (t3.drop L.length) with
          | none => none
          | some t4 =>
            let w := t4.dropWhile pyIsSpace
            let t5 :=
              if pfx "const client = await getClientForInstance".data w
              then w.drop "const client = await getClientForInstance".data.length
              else t4
            some (s.take (s.length - t5.length), t5)
    else none

/-- Substitution of the board-tools handler pattern with
`add_get_client` (fuelled scan, leftmost, non-overlapping). -/
def subBT4F : Nat → Str → Str
  | _, [] => []
  | 0, s => s
  | n + 1, c :: rest =>
    match matchBT4At (c :: rest) with
    | some (g0, after) => add_get_client g0 ++ subBT4F n after
    | none => c :: subBT4F n rest

/-- Function embedding the module-level run of `update-board-tools.py`
on one file content: the four transformation passes in source order,
then the write-back, which the script performs unconditionally (there is
no change guard around its final write). -/
def updateBoardToolsRun (c : Str) : Str × Bool :=
  let c1 := subBT1F c.length c
  let c2 := replaceAll "await client.getBoards(params)".data
    "await client.getBoards(restParams)".data c1
  let c3 := applyLitSubs boardPatterns c2
  let c4 := subBT4F c3.length c3
  (c4, true)

/-! Section: Concrete inputs used by the claim theorems -/

def c2Name : Str := "card-schemas.ts".data

/-- A file whose schema declaration is opened but never balanced. -/
def c2Mal : Str :=
  "import \x7b z \x7d from \x27zod\x27;\nexport const fooSchema = z.object(\x7b\n  a: z.string(),".data

def c3Name : Str := "board-schemas.ts".data

/-- A file the pipeline leaves unchanged. -/
def c3Input : Str := "const x = 1;".data

def c4Name : Str := "bulk-schemas.ts".data

/-- A file reaching the UNMATCHED state. -/
def c4Mal : Str := "export const barSchema = z.object(\x7b\n  b: z.number(),".data

/-- A file with no import clause at all. -/
def c5Input : Str := "const y = 2;".data

/-- A file with a common-schemas import clause lacking the symbol. -/
def c5Merge : Str := "import \x7b a \x7d from \x27./common-schemas.js\x27;".data

/-- A file whose existing import of the symbol is formatted differently
from the canonical output of the augmenters. -/
def c8Input : Str :=
  "import \x7b z \x7d from \x27zod\x27;\nimport \x7binstanceParameterSchema\x7d from \x27./common-schemas.js\x27;".data

/-- A schema declaration with a nested `z.object` field. -/
def c10NestedZ : Str :=
  "export const aSchema = z.object(\x7b\n  b: z.object(\x7b\n    c: z.string(),\n  \x7d),\n\x7d);".data

/-- A schema declaration with a nested plain-object field. -/
def c10NestedPlain : Str :=
  "export const aSchema = z.object(\x7b\n  meta: \x7b\n    x: z.number(),\n  \x7d,\n\x7d);".data

/-! Section: Toolkit lemmas: prefixes and substrings -/

theorem pfx_append (a b : Str) : pfx a (a ++ b) = true := by
  induction a with
  | nil => rfl
  | cons c as ih => simp [pfx, ih]

theorem pfx_refl (s : Str) : pfx s s = true := by
  have h := pfx_append s []
  simpa using h

theorem pfx_iff (a s : Str) : pfx a s = true ↔ ∃ t, s = a ++ t := by
  constructor
  · intro h
    induction a generalizing s with
    | nil => exact ⟨s, rfl⟩
    | cons c as ih =>
      cases s with
      | nil => simp [pfx] at h
      | cons b bs =>
        simp only [pfx] at h
        by_cases hcb : c = b
        · rcases ih bs (by simpa [hcb] using h) with ⟨t, ht⟩
          exact ⟨t, by simp [hcb, ht]⟩
        · simp [hcb] at h
  · rintro ⟨t, rfl⟩
    exact pfx_append a t

theorem pfx_take (k : Nat) (s : Str) : pfx (s.take k) s = true := by
  rw [pfx_iff]
  exact ⟨s.drop k, (List.take_append_drop k s).symm⟩

theorem pfx_append_cancel (a x y : Str) : pfx (a ++ x) (a ++ y) = pfx x y := by
  induction a with
  | nil => rfl
  | cons c as ih => simp [pfx, ih]

theorem cs_of_pfx {m s : Str} (h : pfx m s = true) : containsStr m s = true := by
  cases s with
  | nil =>
    cases m with
    | nil => rfl
    | cons c ms => simp [pfx] at h
  | cons c rest => simp [containsStr, h]

theorem cs_self (m : Str) : containsStr m m = true := cs_of_pfx (pfx_refl m)

theorem cs_cons {m t : Str} (c : Char) (h : containsStr m t = true) :
    containsStr m (c :: t) = true := by
  simp [containsStr, h]

theorem cs_append_right {m t : Str} (s : Str) (h : containsStr m t = true) :
    containsStr m (s ++ t) = true := by
  induction s with
  | nil => simpa using h
  | cons c ss ih => exact cs_cons c ih

theorem cs_append_left {m s : Str} (t : Str) (h : containsStr m s = true) :
    containsStr m (s ++ t) = true := by
  induction s with
  | nil =>
    cases m with
    | nil => exact cs_of_pfx rfl
    | cons c ms => simp [containsStr] at h
  | cons c ss ih =>
    simp only [containsStr, Bool.or_eq_true] at h
    rcases h with h | h
    · rcases (pfx_iff _ _).1 h with ⟨u, hu⟩
      exact cs_of_pfx ((pfx_iff _ _).2 ⟨u ++ t, by simp [hu]⟩)
    · exact cs_cons c (ih h)

theorem cs_exists {m s : Str} (h : containsStr m s = true) :
    ∃ u v, s = u ++ m ++ v := by
  induction s with
  | nil =>
    cases m with
    | nil => exact ⟨[], [], rfl⟩
    | cons c ms => simp [containsStr] at h
  | cons c rest ih =>
    simp only [containsStr, Bool.or_eq_true] at h
    rcases h with h | h
    · rcases (pfx_iff _ _).1 h with ⟨t, ht⟩
      exact ⟨[], t, by simp [ht]⟩
    · rcases ih h with ⟨u, v, huv⟩
      exact ⟨c :: u, v, by simp [huv]⟩

theorem cs_trans {a b s : Str} (h1 : containsStr a b = true)
    (h2 : containsStr b s = true) : containsStr a s = true := by
  rcases cs_exists h2 with ⟨u, v, rfl⟩
  exact cs_append_left v (cs_append_right u h1)

theorem cs_ne_nil_of_true {m s : Str} (hm : m ≠ []) (h : containsStr m s = true) :
    s ≠ [] := by
  intro hs
  subst hs
  cases m with
  | nil => exact hm rfl
  | cons c ms => simp [containsStr] at h

/-! Section: Toolkit lemmas: line splitting and joining -/

theorem splitLines_ne_nil (c : Str) : splitLines c ≠ [] := by
  cases c with
  | nil => simp [splitLines]
  | cons a rest =>
    simp only [splitLines]
    by_cases ha : a = '\n'
    · simp [ha]
    · simp only [ha, if_false]
      cases splitLines rest <;> simp

theorem joinLines_cons_ne {ls : List Str} (l : Str) (h : ls ≠ []) :
    joinLines (l :: ls) = l ++ '\n' :: joinLines ls := by
  cases ls with
  | nil => exact absurd rfl h
  | cons x xs => rfl

theorem joinLines_splitLines (c : Str) : joinLines (splitLines c) = c := by
  induction c with
  | nil => rfl
  | cons a rest ih =>
    by_cases ha : a = '\n'
    · subst ha
      have hsp : splitLines ('\n' :: rest) = [] :: splitLines rest := by
        simp [splitLines]
      rw [hsp, joinLines_cons_ne [] (splitLines_ne_nil rest), ih]
      rfl
    · cases hs : splitLines rest with
      | nil => exact absurd hs (splitLines_ne_nil rest)
      | cons l ls =>
        have hsp : splitLines (a :: rest) = (a :: l) :: ls := by
          simp [splitLines, ha, hs]
        rw [hsp]
        rw [hs] at ih
        cases ls with
        | nil =>
          simp only [joinLines] at ih ⊢
          simp [ih]
        | cons y ys =>
          rw [joinLines_cons_ne (a :: l) (by simp)]
          rw [joinLines_cons_ne l (by simp)] at ih
          simp only [List.cons_append]
          rw [ih]

theorem splitLines_no_newline {l : Str} (h : '\n' ∉ l) : splitLines l = [l] := by
  induction l with
  | nil => rfl
  | cons a rest ih =>
    have ha : a ≠ '\n' := fun hc => h (by simp [hc])
    have h2 := ih (fun hc => h (by simp [hc]))
    simp [splitLines, ha, h2]

theorem splitLines_append_newline {l : Str} (t : Str) (h : '\n' ∉ l) :
    splitLines (l ++ '\n' :: t) = l :: splitLines t := by
  induction l with
  | nil => simp [splitLines]
  | cons a rest ih =>
    have ha : a ≠ '\n' := fun hc => h (by simp [hc])
    have h2 := ih (fun hc => h (by simp [hc]))
    have hstep : splitLines (a :: (rest ++ '\n' :: t)) =
        match splitLines (rest ++ '\n' :: t) with
        | [] => [[a]]
        | l :: ls => (a :: l) :: ls := by
      simp [splitLines, ha]
    rw [h2] at hstep
    exact hstep

theorem splitLines_joinLines {ls : List Str} (h0 : ls ≠ [])
    (h : ∀ l ∈ ls, '\n' ∉ l) : splitLines (joinLines ls) = ls := by
  induction ls with
  | nil => exact absurd rfl h0
  | cons l rest ih =>
    cases rest with
    | nil =>
      simp only [joinLines]
      exact splitLines_no_newline (h l (by simp))
    | cons x xs =>
      rw [joinLines_cons_ne l (by simp)]
      rw [splitLines_append_newline _ (h l (by simp))]
      rw [ih (by simp) (fun a ha => h a (by simp [ha]))]

/-! Section: Toolkit lemmas: replacement scanners -/

theorem replaceAllF_cons_pos {pat : Str} (repl : Str) (n : Nat) (c : Char) (rest : Str)
    (h : pfx pat (c :: rest) = true) :
    replaceAllF pat repl (n + 1) (c :: rest) =
      repl ++ replaceAllF pat repl n ((c :: rest).drop pat.length) := by
  simp [replaceAllF, h]

theorem replaceAllF_cons_neg {pat : Str} (repl : Str) (n : Nat) (c : Char) (rest : Str)
    (h : pfx pat (c :: rest) = false) :
    replaceAllF pat repl (n + 1) (c :: rest) = c :: replaceAllF pat repl n rest := by
  simp [replaceAllF, h]

theorem replaceAllF_no_occ (pat repl : Str) :
    ∀ (n : Nat) (s : Str), containsStr pat s = false → replaceAllF pat repl n s = s := by
  intro n
  induction n with
  | zero => intro s _; cases s <;> rfl
  | succ n ih =>
    intro s h
    cases s with
    | nil => rfl
    | cons c rest =>
      simp only [containsStr, Bool.or_eq_false_iff] at h
      rw [replaceAllF_cons_neg repl n c rest h.1, ih rest h.2]

theorem drop_append_self (a b : Str) : (a ++ b).drop a.length = b := by
  induction a with
  | nil => rfl
  | cons c as ih => exact ih

theorem replaceAll_pfx_clean {pat b : Str} (repl : Str) (hne : pat ≠ [])
    (hb : containsStr pat b = false) : replaceAll pat repl (pat ++ b) = repl ++ b := by
  cases pat with
  | nil => exact absurd rfl hne
  | cons p ps =>
    have hp : pfx (p :: ps) (p :: (ps ++ b)) = true := pfx_append (p :: ps) b
    have hdrop : (p :: (ps ++ b)).drop (p :: ps).length = b := drop_append_self (p :: ps) b
    have hlen : ((p :: ps) ++ b).length = (ps ++ b).length + 1 := by simp
    show replaceAllF (p :: ps) repl ((p :: ps) ++ b).length (p :: (ps ++ b)) = repl ++ b
    rw [hlen, replaceAllF_cons_pos repl _ p (ps ++ b) hp, hdrop,
      replaceAllF_no_occ (p :: ps) repl _ b hb]

theorem replaceAllF_contains {pat : Str} (repl : Str) (hne : pat ≠ []) :
    ∀ (n : Nat) (s : Str), containsStr pat s = true → s.length ≤ n →
      containsStr repl (replaceAllF pat repl n s) = true := by
  intro n
  induction n with
  | zero =>
    intro s h hl
    have : s = [] := by cases s with
      | nil => rfl
      | cons c rest => simp at hl
    subst this
    exact absurd h (by cases pat with
      | nil => exact absurd rfl hne
      | cons p ps => simp [containsStr])
  | succ n ih =>
    intro s h hl
    cases s with
    | nil =>
      exact absurd h (by cases pat with
        | nil => exact absurd rfl hne
        | cons p ps => simp [containsStr])
    | cons c rest =>
      by_cases hp : pfx pat (c :: rest) = true
      · simp only [replaceAllF, hp, if_pos]
        exact cs_append_left _ (cs_self repl)
      · simp only [containsStr, Bool.or_eq_true] at h
        rcases h with h | h
        · exact absurd h hp
        · simp only [replaceAllF, hp, if_false]
          exact cs_cons c (ih rest h (by simp at hl; omega))

theorem subAllR1F_contains (repl : Str) :
    ∀ (n : Nat) (s : Str), searchR1 s ≠ none → s.length ≤ n →
      containsStr repl (subAllR1F repl n s) = true := by
  intro n
  induction n with
  | zero =>
    intro s h hl
    have : s = [] := by cases s with
      | nil => rfl
      | cons c rest => simp at hl
    subst this
    simp [searchR1] at h
  | succ n ih =>
    intro s h hl
    cases s with
    | nil => simp [searchR1] at h
    | cons c rest =>
      cases hm : matchR1At (c :: rest) with
      | some p =>
        simp only [subAllR1F, hm]
        exact cs_append_left _ (cs_self repl)
      | none =>
        have hs : searchR1 (c :: rest) = searchR1 rest := by
          simp [searchR1, hm]
        simp only [subAllR1F, hm]
        exact cs_cons c (ih rest (by rw [hs] at h; exact h) (by simp at hl; omega))

/-! Section: Toolkit lemmas: the generic-import scanner -/

theorem dropLit_eq {lit s s1 : Str} (h : dropLit lit s = some s1) :
    s = lit ++ s1 := by
  unfold dropLit at h
  by_cases hp : pfx lit s = true
  · rw [if_pos hp] at h
    rcases (pfx_iff lit s).1 hp with ⟨t, rfl⟩
    have : (lit ++ t).drop lit.length = t := drop_append_self lit t
    rw [this] at h
    cases h
    rfl
  · rw [if_neg hp] at h
    cases h

theorem matchR2At_matched {s m r : Str} (h : matchR2At s = some (m, r)) :
    containsStr m s = true ∧ m ≠ [] := by
  unfold matchR2At at h
  cases h1 : dropLit litImport s with
  | none => rw [h1] at h; cases h
  | some s1 =>
    rw [h1] at h
    dsimp only at h
    cases h2 : spaces1 s1 with
    | none => rw [h2] at h; cases h
    | some s2 =>
      rw [h2] at h
      dsimp only at h
      cases h3 : dropLit "\x7b".data s2 with
      | none => rw [h3] at h; cases h
      | some s3 =>
        rw [h3] at h
        dsimp only at h
        by_cases hg : (s3.takeWhile isNotCloseBrace).isEmpty = true
        · rw [if_pos hg] at h; cases h
        · rw [if_neg hg] at h
          cases h4 : dropLit "\x7d".data (s3.drop (s3.takeWhile isNotCloseBrace).length) with
          | none => rw [h4] at h; cases h
          | some s5 =>
            rw [h4] at h
            dsimp only at h
            cases h5 : spaces1 s5 with
            | none => rw [h5] at h; cases h
            | some s6 =>
              rw [h5] at h
              dsimp only at h
              cases h6 : dropLit litFrom s6 with
              | none => rw [h6] at h; cases h
              | some s7 =>
                rw [h6] at h
                dsimp only at h
                cases h7 : spaces1 s7 with
                | none => rw [h7] at h; cases h
                | some s8 =>
                  rw [h7] at h
                  dsimp only at h
                  cases s8 with
                  | nil => cases h
                  | cons q s9 =>
                    dsimp only at h
                    by_cases hq : q = '\x27' ∨ q = '"'
                    · rw [if_pos hq] at h
                      by_cases ht : (s9.takeWhile isNotQuote).isEmpty = true
                      · rw [if_pos ht] at h; cases h
                      · rw [if_neg ht] at h
                        cases h8 : s9.drop (s9.takeWhile isNotQuote).length with
                        | nil => rw [h8] at h; cases h
                        | cons q2 s11 =>
                          rw [h8] at h
                          dsimp only at h
                          by_cases hq2 : q2 = '\x27' ∨ q2 = '"'
                          · rw [if_pos hq2] at h
                            cases h9 : dropLit ";".data s11 with
                            | none => rw [h9] at h; cases h
                            | some s12 =>
                              rw [h9] at h
                              dsimp only at h
                              have hm : m = litImport ++ s1.take (s1.length - s12.length) := by
                                cases h; rfl
                              constructor
                              · rw [dropLit_eq h1, hm]
                                exact cs_of_pfx
                                  (by rw [pfx_append_cancel]; exact pfx_take _ s1)
                              · intro hc
                                rw [hm] at hc
                                have := congrArg List.length hc
                                simp [litImport] at this
                          · rw [if_neg hq2] at h; cases h
                    · rw [if_neg hq] at h; cases h

theorem searchR2_matched {c m : Str} (h : searchR2 c = some m) :
    containsStr m c = true ∧ m ≠ [] := by
  induction c with
  | nil => cases h
  | cons a rest ih =>
    cases hm : matchR2At (a :: rest) with
    | some p =>
      have hsome : searchR2 (a :: rest) = some p.1 := by
        simp [searchR2, hm]
      rw [hsome] at h
      cases h
      exact matchR2At_matched (s := a :: rest) (by rw [hm])
    | none =>
      have hskip : searchR2 (a :: rest) = searchR2 rest := by
        simp [searchR2, hm]
      rw [hskip] at h
      rcases ih h with ⟨h1, h2⟩
      exact ⟨cs_cons a h1, h2⟩

/-! Section: Dichotomy lemmas for the import augmenter and schema injector -/

/-- Augmentation dichotomy: `add_instance_import` either returns its
input unchanged or returns a text containing the symbol
`instanceParameterSchema`. -/
theorem add_instance_import_cases (c : Str) :
    add_instance_import c = c ∨
      containsStr symbolStr (add_instance_import c) = true := by
  unfold add_instance_import
  by_cases hsp : (containsStr spec1 c || containsStr spec2 c) = true
  · rw [if_pos hsp]
    cases hs : searchR1 c with
    | none => exact Or.inl rfl
    | some g =>
      dsimp only
      by_cases hsym : containsStr symbolStr (pyStrip g) = true
      · rw [if_pos hsym]; exact Or.inl rfl
      · rw [if_neg hsym]
        refine Or.inr (cs_trans ?_ (subAllR1F_contains (mkReplR1 g) c.length c
          (by rw [hs]; exact fun hc => by cases hc) le_rfl))
        show containsStr symbolStr (mkReplR1 g) = true
        unfold mkReplR1
        exact cs_append_right _ (by decide)
  · rw [if_neg hsp]
    cases hs : searchR2 c with
    | none => exact Or.inl rfl
    | some m =>
      dsimp only
      rcases searchR2_matched hs with ⟨hin, hne⟩
      refine Or.inr (cs_trans (b := m ++ '\n' :: newImportLine) ?_ ?_)
      · exact cs_append_right m (cs_cons '\n' (by decide))
      · exact replaceAllF_contains _ hne c.length c hin le_rfl

theorem cs_joinLines_head {m : Str} (l : Str) (ls : List Str)
    (h : containsStr m l = true) : containsStr m (joinLines (l :: ls)) = true := by
  cases ls with
  | nil => exact h
  | cons x xs =>
    rw [joinLines_cons_ne l (by simp)]
    exact cs_append_left _ h

theorem cs_joinLines_tail {m : Str} (hne : m ≠ []) (l : Str) (ls : List Str)
    (h : containsStr m (joinLines ls) = true) :
    containsStr m (joinLines (l :: ls)) = true := by
  cases ls with
  | nil =>
    refine absurd h ?_
    cases m with
    | nil => exact absurd rfl hne
    | cons a as => simp [joinLines, containsStr]
  | cons x xs =>
    rw [joinLines_cons_ne l (by simp)]
    exact cs_append_right l (cs_cons '\n' h)

/-- Every run of the schema scan either returns the lines unchanged or
produces lines whose join contains the spread marker: every modification
the scan makes inserts the marker text. -/
theorem addSchemaAux_cases (lines : List Str) :
    ∀ (ls : List Str) (i : Nat) (inS : Bool) (bc : Int) (st : Nat),
      addSchemaAux lines ls i inS bc st = ls ∨
        containsStr marker3 (joinLines (addSchemaAux lines ls i inS bc st)) = true := by
  intro ls
  induction ls with
  | nil => intro i inS bc st; exact Or.inl rfl
  | cons line rest ih =>
    intro i inS bc st
    by_cases h1 : containsStr objOpen line = true
    · have heq : addSchemaAux lines (line :: rest) i inS bc st =
          line :: addSchemaAux lines rest (i + 1) true (braceDelta line) i := by
        simp [addSchemaAux, h1]
      rw [heq]
      rcases ih (i + 1) true (braceDelta line) i with h | h
      · exact Or.inl (by rw [h])
      · exact Or.inr (cs_joinLines_tail (by decide) line _ h)
    · by_cases h2 : inS = true
      · by_cases h3 : bc + braceDelta line = 0 ∧ containsStr closeTok line = true
        · by_cases h4 : containsStr marker3
              (joinLines ((lines.drop st).take (i + 1 - st))) = true
          · have heq : addSchemaAux lines (line :: rest) i inS bc st =
                line :: addSchemaAux lines rest (i + 1) false 0 0 := by
              simp [addSchemaAux, h1, h2, h3, h4]
            rw [heq]
            rcases ih (i + 1) false 0 0 with h | h
            · exact Or.inl (by rw [h])
            · exact Or.inr (cs_joinLines_tail (by decide) line _ h)
          · by_cases h5 : pyStrip line = closeTok
            · have heq : addSchemaAux lines (line :: rest) i inS bc st =
                  markerLine :: line :: addSchemaAux lines rest (i + 1) false 0 0 := by
                simp [addSchemaAux, h1, h2, h3, h4, h5]
              rw [heq]
              exact Or.inr (cs_joinLines_head markerLine _ (by decide))
            · have heq : addSchemaAux lines (line :: rest) i inS bc st =
                  replaceAll closeTok insTok line ::
                    addSchemaAux lines rest (i + 1) false 0 0 := by
                simp [addSchemaAux, h1, h2, h3, h4, h5]
              rw [heq]
              refine Or.inr (cs_joinLines_head _ _ ?_)
              exact cs_trans (b := insTok) (by decide)
                (replaceAllF_contains insTok (by decide) line.length line h3.2 le_rfl)
        · have heq : addSchemaAux lines (line :: rest) i inS bc st =
              line :: addSchemaAux lines rest (i + 1) true (bc + braceDelta line) st := by
            simp [addSchemaAux, h1, h2, h3]
          rw [heq]
          rcases ih (i + 1) true (bc + braceDelta line) st with h | h
          · exact Or.inl (by rw [h])
          · exact Or.inr (cs_joinLines_tail (by decide) line _ h)
      · have heq : addSchemaAux lines (line :: rest) i inS bc st =
            line :: addSchemaAux lines rest (i + 1) false bc st := by
          simp [addSchemaAux, h1, h2]
        rw [heq]
        rcases ih (i + 1) false bc st with h | h
        · exact Or.inl (by rw [h])
        · exact Or.inr (cs_joinLines_tail (by decide) line _ h)

/-- Injection dichotomy: `add_instance_to_schema` either returns its
input unchanged or returns a text containing the marker
`...instanceParameterSchema`. -/
theorem add_instance_to_schema_cases (c : Str) :
    add_instance_to_schema c = c ∨
      containsStr marker3 (add_instance_to_schema c) = true := by
  unfold add_instance_to_schema
  rcases addSchemaAux_cases (splitLines c) (splitLines c) 0 false 0 0 with h | h
  · exact Or.inl (by rw [h, joinLines_splitLines])
  · exact Or.inr h

/-- If the scan never takes the closing branch, it copies every line
unchanged. -/
theorem addSchemaAux_no_close (lines : List Str) :
    ∀ (ls : List Str) (i : Nat) (inS : Bool) (bc : Int) (st : Nat),
      schemaScanClosedAux ls inS bc = false →
      addSchemaAux lines ls i inS bc st = ls := by
  intro ls
  induction ls with
  | nil => intro i inS bc st _; rfl
  | cons line rest ih =>
    intro i inS bc st hcl
    by_cases h1 : containsStr objOpen line = true
    · have hstep : schemaScanClosedAux (line :: rest) inS bc =
          schemaScanClosedAux rest true (braceDelta line) := by
        simp [schemaScanClosedAux, h1]
      have hcl2 : schemaScanClosedAux rest true (braceDelta line) = false := by
        rw [← hstep]; exact hcl
      have heq : addSchemaAux lines (line :: rest) i inS bc st =
          line :: addSchemaAux lines rest (i + 1) true (braceDelta line) i := by
        simp [addSchemaAux, h1]
      rw [heq, ih (i + 1) true (braceDelta line) i hcl2]
    · by_cases h2 : inS = true
      · by_cases h3 : bc + braceDelta line = 0 ∧ containsStr closeTok line = true
        · exact absurd hcl (by simp [schemaScanClosedAux, h1, h2, h3])
        · have hstep : schemaScanClosedAux (line :: rest) inS bc =
              schemaScanClosedAux rest true (bc + braceDelta line) := by
            simp [schemaScanClosedAux, h1, h2, h3]
          have hcl2 : schemaScanClosedAux rest true (bc + braceDelta line) = false := by
            rw [← hstep]; exact hcl
          have heq : addSchemaAux lines (line :: rest) i inS bc st =
              line :: addSchemaAux lines rest (i + 1) true (bc + braceDelta line) st := by
            simp [addSchemaAux, h1, h2, h3]
          rw [heq, ih (i + 1) true (bc + braceDelta line) st hcl2]
      · have hstep : schemaScanClosedAux (line :: rest) inS bc =
            schemaScanClosedAux rest false bc := by
          simp [schemaScanClosedAux, h1, h2]
        have hcl2 : schemaScanClosedAux rest false bc = false := by
          rw [← hstep]; exact hcl
        have heq : addSchemaAux lines (line :: rest) i inS bc st =
            line :: addSchemaAux lines rest (i + 1) false bc st := by
          simp [addSchemaAux, h1, h2]
        rw [heq, ih (i + 1) false bc st hcl2]

/-- When no schema declaration is ever balanced, the injection stage is
the identity. -/
theorem add_instance_to_schema_no_close {c : Str}
    (h : schemaNeverCloses c = true) : add_instance_to_schema c = c := by
  have hx : schemaScanClosedAux (splitLines c) false 0 = false := by
    unfold schemaNeverCloses at h
    simpa using h
  unfold add_instance_to_schema
  rw [addSchemaAux_no_close (splitLines c) (splitLines c) 0 false 0 0 hx,
    joinLines_splitLines]

/-- The in-memory pipeline of `update_schema_file` is idempotent. -/
theorem schemaTransform_idem (c : Str) :
    schemaTransform (schemaTransform c) = schemaTransform c := by
  by_cases h0 : containsStr marker3 c = true
  · have h : schemaTransform c = c := by simp [schemaTransform, h0]
    rw [h]
    exact h
  · set y := if has_instance_import c then c else add_instance_import c with hy
    have hTc : schemaTransform c = add_instance_to_schema y := by
      simp [schemaTransform, h0, hy]
    rcases add_instance_to_schema_cases y with hz | hz
    · rw [hTc, hz]
      by_cases hm : containsStr marker3 y = true
      · simp [schemaTransform, hm]
      · by_cases hii : has_instance_import c = true
        · have hyc : y = c := by rw [hy, if_pos hii]
          rw [hyc, hTc, hz]
          exact hyc
        · have hyv : y = add_instance_import c := by
            rw [hy, if_neg hii]
          rcases add_instance_import_cases c with ha | ha
          · have hyc : y = c := by rw [hyv, ha]
            rw [hyc, hTc, hz]
            exact hyc
          · have hiy : has_instance_import y = true := by rw [hyv]; exact ha
            have hstep : schemaTransform y = add_instance_to_schema y := by
              simp [schemaTransform, hm, hiy]
            rw [hstep, hz]
    · rw [hTc]
      simp [schemaTransform, hz]

/-- Claim C1: applying the transformation of `update_schema_file` twice yields
output byte-identical to applying it once, for every file name and
content.  (When the first run injects, the marker
`...instanceParameterSchema` makes the second run skip; when the first
run changes only the import or nothing, the stages of the second run are
themselves no-ops on the result.) -/
theorem c1_update_schema_file_idempotent (name c : Str) :
    (update_schema_file name (update_schema_file name c).1).1 =
      (update_schema_file name c).1 := by
  by_cases hskip : name = nameCommonSchemas ∨ name = nameIndexTs
  · simp [update_schema_file, hskip]
  · have hrel : ∀ d, (update_schema_file name d).1 = schemaTransform d := by
      intro d
      by_cases hd : containsStr marker3 d = true
      · simp [update_schema_file, schemaTransform, hskip, hd]
      · simp [update_schema_file, schemaTransform, hskip, hd]
    rw [hrel, hrel, schemaTransform_idem]

/-- Claim C2 counterexample: for the file `c2Mal`, whose schema
declaration is opened but never balanced before end of file, the
on-disk output of `update_schema_file` is NOT byte-identical to the input
(the import augmentation is still applied and the file is written back
unconditionally), and zero — not one — error reports are produced. -/
theorem c2_counterexample :
    (update_schema_file c2Name c2Mal).1 ≠ c2Mal ∧
      ((update_schema_file c2Name c2Mal).2.2.filter isErrorReport).length = 0 := by
  exact ⟨by decide, by decide⟩

/-- Claim C2 amended: for every non-skipped file on which the scan never
balances a schema declaration (the import-augmented text never reaches
the closing branch), the injection stage leaves the text unchanged, so
the on-disk output is exactly the import-augmented text (not necessarily
the input); the file is still written back, no error is reported for it,
and the run continues with (and processes all of) the remaining files. -/
theorem c2_amended_unmatched_behavior :
    (∀ name c, ¬(name = nameCommonSchemas ∨ name = nameIndexTs) →
      containsStr marker3 c = false →
      schemaNeverCloses (if has_instance_import c then c else add_instance_import c) = true →
      (update_schema_file name c).1 =
          (if has_instance_import c then c else add_instance_import c) ∧
        (update_schema_file name c).2.1 = true ∧
        ((update_schema_file name c).2.2.filter isErrorReport).length = 0) ∧
    (∀ files, ((runMain true files).1).length = files.length) := by
  constructor
  · intro name c hskip hm hnc
    have hz := add_instance_to_schema_no_close hnc
    refine ⟨?_, ?_, ?_⟩
    · simp only [update_schema_file, if_neg hskip]
      rw [if_neg (by simp [hm])]
      exact hz
    · simp [update_schema_file, hskip, hm]
    · simp [update_schema_file, hskip, hm, isErrorReport]
  · intro files
    simp [runMain]

theorem c2_amended_witness :
    schemaNeverCloses
        (if has_instance_import c2Mal then c2Mal else add_instance_import c2Mal) = true ∧
      ((update_schema_file c2Name c2Mal).2.2.filter isErrorReport).length = 0 :=
  ⟨by decide,
    ((c2_amended_unmatched_behavior.1 c2Name c2Mal (by decide) (by decide)
      (by decide)).2.2)⟩

/-- Claim C3 counterexample: `scripts/update-schemas.py` writes the file
`c3Input` back even though the pipeline leaves its content unchanged:
final text equals the text read at start, yet the write happens. -/
theorem c3_counterexample :
    (update_schema_file c3Name c3Input).1 = c3Input ∧
      (update_schema_file c3Name c3Input).2.1 = true := by
  exact ⟨by decide, by decide⟩

/-- Claim C3 amended: the regex-driven updater (`update-all-schemas.py`)
writes a file back exactly when the final text differs from the text read
at start, but the depth-counting updater (`scripts/update-schemas.py`)
writes every processed (non-skipped, non-marker) file unconditionally,
even when its content is unchanged, and the run of
`update-board-tools.py` likewise writes its file back unconditionally. -/
theorem c3_amended_write_conditions :
    (∀ c, (updateSchemaFileRegex c).2 = true ↔ (updateSchemaFileRegex c).1 ≠ c) ∧
    (∀ name c, ¬(name = nameCommonSchemas ∨ name = nameIndexTs) →
      containsStr marker3 c = false → (update_schema_file name c).2.1 = true) ∧
    (∀ c, (updateBoardToolsRun c).2 = true) := by
  refine ⟨?_, ?_, ?_⟩
  · intro c
    simp only [updateSchemaFileRegex]
    generalize (if containsStr litImportCheck c then c
      else replaceAll zodLine (zodLine ++ '\n' :: newImportLine) c) = c1
    generalize subR3F c1.length c1 = c2
    by_cases h : c2 = c
    · simp [h]
    · simp [h]
  · intro name c h1 h2
    simp [update_schema_file, h1, h2]
  · intro c
    rfl

theorem c3_amended_witness :
    ¬(c3Name = nameCommonSchemas ∨ c3Name = nameIndexTs) ∧
      (update_schema_file c3Name c3Input).2.1 = true ∧
      (updateBoardToolsRun c3Input).2 = true :=
  ⟨by decide,
    c3_amended_write_conditions.2.1 c3Name c3Input (by decide) (by decide),
    c3_amended_write_conditions.2.2 c3Input⟩

/-- Claim C4: the code disagrees with the required behaviour.  The file
`c4Mal` reaches the UNMATCHED state (EOF with the declaration still
open), yet `main` exits with status 0: the only nonzero exit in the
script is for a missing schemas directory. -/
theorem c4_exit_zero_on_unmatched :
    schemaUnmatchedAtEof c4Mal = true ∧
      (runMain true [(c4Name, c4Mal)]).2 = 0 := by
  exact ⟨by decide, by decide⟩

/-- Claim C5 counterexample: on a file with no import clause at all the
augmenter does NOT insert the import at the top of the file; it returns
the text unchanged and the helper symbol ends up not imported. -/
theorem c5_counterexample :
    add_instance_import c5Input = c5Input ∧
      containsStr symbolStr (add_instance_import c5Input) = false := by
  exact ⟨by decide, by decide⟩

/-- Claim C5 amended: the import augmenter guarantees the helper symbol
is imported only when an import clause is found.  When a common-schemas
clause matches the import regex, the symbol is merged into its name list exactly
when absent (otherwise the text is unchanged); when no common-schemas
specifier is present but some braced import clause matches, a new import
clause carrying the symbol is inserted after it; when the file contains
no matching import clause at all, the text is returned unchanged and the
symbol is not imported. -/
theorem c5_amended_import_augmenter :
    (∀ c, (containsStr spec1 c || containsStr spec2 c) = false →
      searchR2 c = none → add_instance_import c = c) ∧
    (∀ c m, (containsStr spec1 c || containsStr spec2 c) = false →
      searchR2 c = some m →
      containsStr symbolStr (add_instance_import c) = true) ∧
    (∀ c g, (containsStr spec1 c || containsStr spec2 c) = true →
      searchR1 c = some g → containsStr symbolStr (pyStrip g) = false →
      containsStr symbolStr (add_instance_import c) = true) ∧
    (∀ c g, (containsStr spec1 c || containsStr spec2 c) = true →
      searchR1 c = some g → containsStr symbolStr (pyStrip g) = true →
      add_instance_import c = c) := by
  refine ⟨?_, ?_, ?_, ?_⟩
  · intro c h1 h2
    simp [add_instance_import, h1, h2]
  · intro c m h1 h2
    simp only [add_instance_import, h1, Bool.false_eq_true, if_false, h2]
    rcases searchR2_matched h2 with ⟨hin, hne⟩
    exact cs_trans (b := m ++ '\n' :: newImportLine)
      (cs_append_right m (cs_cons '\n' (by decide)))
      (replaceAllF_contains _ hne c.length c hin le_rfl)
  · intro c g h1 h2 h3
    simp only [add_instance_import, h1, if_true, h2, h3, Bool.false_eq_true, if_false]
    refine cs_trans (b := mkReplR1 g) ?_
      (subAllR1F_contains _ c.length c (by rw [h2]; exact fun hc => by cases hc) le_rfl)
    unfold mkReplR1
    exact cs_append_right _ (by decide)
  · intro c g h1 h2 h3
    simp [add_instance_import, h1, h2, h3]

theorem c5_amended_witness :
    searchR1 c5Merge = some " a ".data ∧
      containsStr symbolStr (add_instance_import c5Merge) = true :=
  ⟨by decide,
    c5_amended_import_augmenter.2.2.1 c5Merge " a ".data (by decide) (by decide)
      (by decide)⟩

/-! Section: Stepping lemmas for the schema scan, and claim C6 -/

theorem drop_append_len {α : Type _} (a b : List α) : (a ++ b).drop a.length = b := by
  induction a with
  | nil => rfl
  | cons c as ih => exact ih

theorem addSchemaAux_open_step (lines : List Str) (line : Str) (rest : List Str)
    (i : Nat) (inS : Bool) (bc : Int) (st : Nat)
    (h : containsStr objOpen line = true) :
    addSchemaAux lines (line :: rest) i inS bc st =
      line :: addSchemaAux lines rest (i + 1) true (braceDelta line) i := by
  simp [addSchemaAux, h]

theorem addSchemaAux_field_step (lines : List Str) (line : Str) (rest : List Str)
    (i st : Nat) (bc : Int)
    (h1 : containsStr objOpen line = false)
    (h2 : ¬(bc + braceDelta line = 0 ∧ containsStr closeTok line = true)) :
    addSchemaAux lines (line :: rest) i true bc st =
      line :: addSchemaAux lines rest (i + 1) true (bc + braceDelta line) st := by
  simp [addSchemaAux, h1, h2]

theorem addSchemaAux_close_marker_step (lines : List Str) (line : Str) (rest : List Str)
    (i st : Nat) (bc : Int)
    (h1 : containsStr objOpen line = false)
    (h2 : bc + braceDelta line = 0) (h3 : containsStr closeTok line = true)
    (h4 : containsStr marker3 (joinLines ((lines.drop st).take (i + 1 - st))) = false)
    (h5 : pyStrip line = closeTok) :
    addSchemaAux lines (line :: rest) i true bc st =
      markerLine :: line :: addSchemaAux lines rest (i + 1) false 0 0 := by
  simp [addSchemaAux, h1, h2, h3, h4, h5]

theorem addSchemaAux_skip (lines : List Str) :
    ∀ (pre ls : List Str) (i : Nat) (bc : Int) (st : Nat),
      (∀ l ∈ pre, containsStr objOpen l = false) →
      addSchemaAux lines (pre ++ ls) i false bc st =
        pre ++ addSchemaAux lines ls (i + pre.length) false bc st := by
  intro pre
  induction pre with
  | nil => intro ls i bc st _; simp
  | cons p ps ih =>
    intro ls i bc st hp
    have hp0 : containsStr objOpen p = false := hp p (by simp)
    have heq : addSchemaAux lines ((p :: ps) ++ ls) i false bc st =
        p :: addSchemaAux lines (ps ++ ls) (i + 1) false bc st := by
      simp [addSchemaAux, hp0]
    rw [heq, ih ls (i + 1) bc st (fun l hl => hp l (by simp [hl]))]
    have harith : i + 1 + ps.length = i + (p :: ps).length := by
      simp [List.length_cons]
      omega
    rw [harith]
    simp

theorem addSchemaAux_skip_all (lines : List Str) (post : List Str) (i : Nat)
    (bc : Int) (st : Nat) (hp : ∀ l ∈ post, containsStr objOpen l = false) :
    addSchemaAux lines post i false bc st = post := by
  have h := addSchemaAux_skip lines post [] i bc st hp
  simpa [addSchemaAux] using h

/-- The scan on a file made of inert lines, then an opening line, two
balanced field lines and the canonical closing line, then inert lines:
the marker line is inserted between the last field and the closer. -/
theorem addSchemaAux_c6 (lines : List Str) (pre post : List Str) (opener f1 f2 : Str)
    (hpre : ∀ l ∈ pre, containsStr objOpen l = false)
    (hpost : ∀ l ∈ post, containsStr objOpen l = false)
    (hop : containsStr objOpen opener = true) (hopd : braceDelta opener = 1)
    (hf1 : containsStr objOpen f1 = false) (hf1d : braceDelta f1 = 0)
    (hf2 : containsStr objOpen f2 = false) (hf2d : braceDelta f2 = 0)
    (hm : containsStr marker3 (joinLines ((lines.drop pre.length).take 4)) = false) :
    addSchemaAux lines (pre ++ opener :: f1 :: f2 :: closeTok :: post) 0 false 0 0 =
      pre ++ opener :: f1 :: f2 :: markerLine :: closeTok :: post := by
  rw [addSchemaAux_skip lines pre _ 0 0 0 hpre]
  have haux : addSchemaAux lines (opener :: f1 :: f2 :: closeTok :: post)
      (0 + pre.length) false 0 0 =
      opener :: f1 :: f2 :: markerLine :: closeTok :: post := by
    rw [Nat.zero_add]
    rw [addSchemaAux_open_step lines opener _ pre.length false 0 0 hop, hopd]
    have hc1 : ¬((1 : Int) + braceDelta f1 = 0 ∧ containsStr closeTok f1 = true) := by
      rw [hf1d]
      intro hcon
      norm_num at hcon
    rw [addSchemaAux_field_step lines f1 _ (pre.length + 1) pre.length 1 hf1 hc1]
    have hb1 : (1 : Int) + braceDelta f1 = 1 := by rw [hf1d]; norm_num
    rw [hb1]
    have hc2 : ¬((1 : Int) + braceDelta f2 = 0 ∧ containsStr closeTok f2 = true) := by
      rw [hf2d]
      intro hcon
      norm_num at hcon
    rw [addSchemaAux_field_step lines f2 _ (pre.length + 1 + 1) pre.length 1 hf2 hc2]
    have hb2 : (1 : Int) + braceDelta f2 = 1 := by rw [hf2d]; norm_num
    rw [hb2]
    have hm4 : containsStr marker3 (joinLines ((lines.drop pre.length).take
        (pre.length + 1 + 1 + 1 + 1 - pre.length))) = false := by
      have harith : pre.length + 1 + 1 + 1 + 1 - pre.length = 4 := by omega
      rw [harith]
      exact hm
    rw [addSchemaAux_close_marker_step lines closeTok post (pre.length + 1 + 1 + 1)
      pre.length 1 (by decide) (by decide) (by decide) hm4 (by decide)]
    rw [addSchemaAux_skip_all lines post (pre.length + 1 + 1 + 1 + 1) 0 0 hpost]
  rw [haux]

/-- Claim C6: for every schema declaration with existing fields `f1`,
`f2` (balanced, single-line, not themselves opening a schema) and no
injection marker, the body after injection contains `f1`, then `f2`,
then the routing-field line `  ...instanceParameterSchema,`, in that
order, immediately before the closing terminator line, and nothing else
in the file is altered. -/
theorem c6_field_order_preserved (pre post : List Str) (opener f1 f2 : Str)
    (hpre : ∀ l ∈ pre, containsStr objOpen l = false ∧ '\n' ∉ l)
    (hpost : ∀ l ∈ post, containsStr objOpen l = false ∧ '\n' ∉ l)
    (hop : containsStr objOpen opener = true)
    (hopd : braceDelta opener = 1)
    (hopn : '\n' ∉ opener)
    (hf1 : containsStr objOpen f1 = false) (hf1d : braceDelta f1 = 0)
    (hf1n : '\n' ∉ f1)
    (hf2 : containsStr objOpen f2 = false) (hf2d : braceDelta f2 = 0)
    (hf2n : '\n' ∉ f2)
    (hm : containsStr marker3 (joinLines [opener, f1, f2, closeTok]) = false) :
    add_instance_to_schema (joinLines (pre ++ opener :: f1 :: f2 :: closeTok :: post)) =
      joinLines (pre ++ opener :: f1 :: f2 :: markerLine :: closeTok :: post) := by
  have hnl : ∀ l ∈ pre ++ opener :: f1 :: f2 :: closeTok :: post, '\n' ∉ l := by
    intro l hl
    rcases List.mem_append.1 hl with h | h
    · exact (hpre l h).2
    · simp only [List.mem_cons] at h
      rcases h with rfl | rfl | rfl | rfl | h
      · exact hopn
      · exact hf1n
      · exact hf2n
      · decide
      · exact (hpost l h).2
  have hne : pre ++ opener :: f1 :: f2 :: closeTok :: post ≠ [] := by
    cases pre <;> simp
  have hsplit := splitLines_joinLines hne hnl
  unfold add_instance_to_schema
  rw [hsplit]
  have hdrop : (pre ++ opener :: f1 :: f2 :: closeTok :: post).drop pre.length =
      opener :: f1 :: f2 :: closeTok :: post := drop_append_len pre _
  have hm4 : containsStr marker3 (joinLines
      (((pre ++ opener :: f1 :: f2 :: closeTok :: post).drop pre.length).take 4)) = false := by
    rw [hdrop]
    exact hm
  rw [addSchemaAux_c6 _ pre post opener f1 f2 (fun l hl => (hpre l hl).1)
    (fun l hl => (hpost l hl).1) hop hopd hf1 hf1d hf2 hf2d hm4]

theorem c6_field_order_witness :
    containsStr marker3
        (joinLines ["export const fooSchema = z.object(\x7b".data,
          "  a: z.string(),".data, "  b: z.number(),".data, closeTok]) = false ∧
      add_instance_to_schema
          (joinLines ([] ++ "export const fooSchema = z.object(\x7b".data ::
            "  a: z.string(),".data :: "  b: z.number(),".data :: closeTok :: [])) =
        joinLines ([] ++ "export const fooSchema = z.object(\x7b".data ::
          "  a: z.string(),".data :: "  b: z.number(),".data ::
          markerLine :: closeTok :: []) :=
  ⟨by decide,
    c6_field_order_preserved [] [] _ _ _ (by simp) (by simp) (by decide) (by decide)
      (by decide) (by decide) (by decide) (by decide) (by decide) (by decide)
      (by decide) (by decide)⟩

/-! Section: Call-site rewriting lemmas, and claim C7 -/

theorem subCallsF_cons_none (n : Nat) (c : Char) (rest : Str)
    (h : matchCallAt (c :: rest) = none) :
    subCallsF (n + 1) (c :: rest) = c :: subCallsF n rest := by
  simp [subCallsF, h]

theorem subCallsF_eq_some {s m after : Str} (n : Nat)
    (h : matchCallAt s = some (m, after)) (hs : s ≠ []) :
    subCallsF (n + 1) s =
      "client.".data ++ m ++ "(restParams)".data ++ subCallsF n after := by
  cases s with
  | nil => exact absurd rfl hs
  | cons c rest => simp [subCallsF, h]

theorem subCallsF_id : ∀ (s : Str), callFreeOn s [] = true →
    ∀ n, subCallsF n s = s := by
  intro s
  induction s with
  | nil => intro _ n; cases n <;> rfl
  | cons c rest ih =>
    intro hcf n
    unfold callFreeOn at hcf
    rw [Bool.and_eq_true] at hcf
    have h1 : matchCallAt ((c :: rest) ++ []) = none :=
      Option.isNone_iff_eq_none.1 hcf.1
    have h1b : matchCallAt (c :: rest) = none := by simpa using h1
    cases n with
    | zero => rfl
    | succ n => rw [subCallsF_cons_none n c rest h1b, ih hcf.2 n]

theorem subCallsF_skip : ∀ (a b : Str) (n : Nat), callFreeOn a b = true →
    subCallsF (a.length + n) (a ++ b) = a ++ subCallsF n b := by
  intro a
  induction a with
  | nil => intro b n _; simp
  | cons c as ih =>
    intro b n hcf
    unfold callFreeOn at hcf
    rw [Bool.and_eq_true] at hcf
    have h1 : matchCallAt ((c :: as) ++ b) = none :=
      Option.isNone_iff_eq_none.1 hcf.1
    have h1b : matchCallAt (c :: (as ++ b)) = none := h1
    have hl : (c :: as).length + n = (as.length + n) + 1 := by
      simp [List.length_cons]
      omega
    rw [hl]
    have hstep : subCallsF ((as.length + n) + 1) (c :: (as ++ b)) =
        c :: subCallsF (as.length + n) (as ++ b) :=
      subCallsF_cons_none (as.length + n) c (as ++ b) h1b
    rw [List.cons_append, hstep, ih b n hcf.2]
    rfl

theorem takeWhile_all_append {p : Char → Bool} :
    ∀ (m : Str) (c : Char) (t : Str), (∀ x ∈ m, p x = true) → p c = false →
      (m ++ c :: t).takeWhile p = m := by
  intro m
  induction m with
  | nil => intro c t _ hc; simp [List.takeWhile_cons, hc]
  | cons a as ih =>
    intro c t hm hc
    simp only [List.cons_append, List.takeWhile_cons, hm a (by simp), if_true]
    rw [ih c t (fun x hx => hm x (by simp [hx])) hc]

theorem matchCallAt_callText (m b : Str) (hw : ∀ x ∈ m, isWordChar x = true)
    (hne : m ≠ []) : matchCallAt (callText m ++ b) = some (m, b) := by
  have hassoc : callText m ++ b =
      "client.".data ++ (m ++ ("(params)".data ++ b)) := by
    simp [callText]
  rw [hassoc]
  unfold matchCallAt
  have hd1 : dropLit "client.".data
      ("client.".data ++ (m ++ ("(params)".data ++ b))) =
      some (m ++ ("(params)".data ++ b)) := by
    unfold dropLit
    rw [if_pos (pfx_append _ _), drop_append_len]
  rw [hd1]
  dsimp only
  have htw : (m ++ ("(params)".data ++ b)).takeWhile isWordChar = m := by
    have hcons : "(params)".data ++ b = '(' :: ("params)".data ++ b) := rfl
    rw [hcons]
    exact takeWhile_all_append m '(' _ hw (by decide)
  rw [htw]
  have hie : m.isEmpty = false := by
    cases m with
    | nil => exact absurd rfl hne
    | cons x xs => rfl
  simp only [hie, Bool.false_eq_true, if_false]
  rw [drop_append_len]
  have hd2 : dropLit "(params)".data ("(params)".data ++ b) = some b := by
    unfold dropLit
    rw [if_pos (pfx_append _ _), drop_append_len]
  rw [hd2]

/-- Claim C7: on the canonical positional-shape handler region
`async (params) => \x7b try \x7b <body>` lacking the idempotence markers,
`fix_params_handler` rewrites the head to destructure
`\x7b instance, ...restParams \x7d = params`, inserts the
client-resolution statement at the start of the try body, and rewrites
every call `client.<method>(params)` in the body to
`client.<method>(restParams)` (shown for a body with two such calls). -/
theorem c7_positional_handler_rewrite (s0 m1 s1 m2 s2 : Str)
    (hw1 : ∀ x ∈ m1, isWordChar x = true) (hne1 : m1 ≠ [])
    (hw2 : ∀ x ∈ m2, isWordChar x = true) (hne2 : m2 ≠ [])
    (hinst : containsStr litInstance
      (oldHead ++ (s0 ++ (callText m1 ++ (s1 ++ (callText m2 ++ s2))))) = false)
    (hgcfi : containsStr litGCFI
      (oldHead ++ (s0 ++ (callText m1 ++ (s1 ++ (callText m2 ++ s2))))) = false)
    (hnohead : containsStr oldHead
      (s0 ++ (callText m1 ++ (s1 ++ (callText m2 ++ s2)))) = false)
    (hcf0 : callFreeOn (newHeadFull ++ s0)
      (callText m1 ++ (s1 ++ (callText m2 ++ s2))) = true)
    (hcf1 : callFreeOn s1 (callText m2 ++ s2) = true)
    (hcf2 : callFreeOn s2 [] = true) :
    fix_params_handler
        (oldHead ++ (s0 ++ (callText m1 ++ (s1 ++ (callText m2 ++ s2))))) =
      newHeadFull ++ (s0 ++ (newCallText m1 ++ (s1 ++ (newCallText m2 ++ s2)))) := by
  unfold fix_params_handler
  rw [hinst, hgcfi]
  simp only [Bool.or_self, Bool.false_eq_true, if_false]
  rw [replaceAll_pfx_clean newHeadFull (by decide) hnohead]
  unfold subCalls
  have hstage0 : newHeadFull ++ (s0 ++ (callText m1 ++ (s1 ++ (callText m2 ++ s2)))) =
      (newHeadFull ++ s0) ++ (callText m1 ++ (s1 ++ (callText m2 ++ s2))) := by
    simp [List.append_assoc]
  rw [hstage0]
  have hlen0 : ((newHeadFull ++ s0) ++ (callText m1 ++ (s1 ++ (callText m2 ++ s2)))).length =
      (newHeadFull ++ s0).length + (callText m1 ++ (s1 ++ (callText m2 ++ s2))).length := by
    simp [List.length_append]
    omega
  rw [hlen0, subCallsF_skip _ _ _ hcf0]
  have hc1len : (callText m1).length = m1.length + 15 := by
    simp [callText, List.length_append]
  have hc2len : (callText m2).length = m2.length + 15 := by
    simp [callText, List.length_append]
  have hlen1 : (callText m1 ++ (s1 ++ (callText m2 ++ s2))).length =
      ((callText m1).length - 1 + (s1 ++ (callText m2 ++ s2)).length) + 1 := by
    simp only [List.length_append]
    omega
  rw [hlen1, subCallsF_eq_some _ (matchCallAt_callText m1 _ hw1 hne1)
    (by simp [callText])]
  have hlen2 : (callText m1).length - 1 + (s1 ++ (callText m2 ++ s2)).length =
      s1.length + ((callText m1).length - 1 + (callText m2 ++ s2).length) := by
    simp only [List.length_append]
    omega
  rw [hlen2, subCallsF_skip _ _ _ hcf1]
  have hlen3 : (callText m1).length - 1 + (callText m2 ++ s2).length =
      ((callText m1).length - 1 + (callText m2).length - 1 + s2.length) + 1 := by
    simp only [List.length_append]
    omega
  rw [hlen3, subCallsF_eq_some _ (matchCallAt_callText m2 _ hw2 hne2)
    (by simp [callText])]
  rw [subCallsF_id s2 hcf2]
  simp [newCallText, List.append_assoc]

theorem c7_positional_handler_witness :
    callFreeOn (newHeadFull ++ "const r = await ".data)
        (callText "getBoards".data ++
          (";\n          const t = await ".data ++
            (callText "getCards".data ++ ";".data))) = true ∧
      fix_params_handler
          (oldHead ++ ("const r = await ".data ++
            (callText "getBoards".data ++
              (";\n          const t = await ".data ++
                (callText "getCards".data ++ ";".data))))) =
        newHeadFull ++ ("const r = await ".data ++
          (newCallText "getBoards".data ++
            (";\n          const t = await ".data ++
              (newCallText "getCards".data ++ ";".data)))) :=
  ⟨by decide,
    c7_positional_handler_rewrite "const r = await ".data "getBoards".data
      ";\n          const t = await ".data "getCards".data ";".data
      (by decide) (by decide) (by decide) (by decide) (by decide) (by decide)
      (by decide) (by decide) (by decide) (by decide)⟩

/-! Section: Claims C8, C9 and C10 -/

/-- Claim C8 counterexample: on `c8Input`, whose existing import of the
symbol is formatted without inner spaces, the literal guard of the
regex-driven updater fails to detect it: augmentation inserts a second import
clause for the common-schemas specifier and the symbol then occurs twice
in the result. -/
theorem c8_counterexample :
    countOcc spec1 (updateSchemaFileRegex c8Input).1 = 2 ∧
      countOcc symbolStr (updateSchemaFileRegex c8Input).1 = 2 := by
  exact ⟨by decide, by decide⟩

/-- Claim C8 amended: the depth-counting augmenter never introduces a
duplicate of the symbol: whenever the name list of the matched
common-schemas import clause already contains the symbol — in whatever
formatting — the text is returned unchanged.  The regex-driven
literal-string guard of the regex-driven augmenter misses differently
formatted existing imports, and then introduces a second clause for the same
specifier and a second occurrence of the symbol. -/
theorem c8_amended_no_duplicate_when_matched :
    ∀ c g, (containsStr spec1 c || containsStr spec2 c) = true →
      searchR1 c = some g → containsStr symbolStr (pyStrip g) = true →
      add_instance_import c = c := by
  intro c g h1 h2 h3
  simp [add_instance_import, h1, h2, h3]

theorem c8_amended_witness :
    searchR1 c8Input = some symbolStr ∧ add_instance_import c8Input = c8Input :=
  ⟨by decide,
    c8_amended_no_duplicate_when_matched c8Input symbolStr (by decide) (by decide)
      (by decide)⟩

/-- Claim C9: whenever the destructured parameter-list text contains the
substring `instance` anywhere — also as part of a longer identifier —
`fix_handler` returns the matched region completely unchanged: no
routing field is added and no client-resolution statement is inserted. -/
theorem c9_instance_substring_skip (params w1 w2 body : Str)
    (h : containsStr litInstance params = true) :
    fix_handler params w1 w2 body = mkHandlerFull params w1 w2 body := by
  simp [fix_handler, h]

theorem c9_instance_substring_skip_witness :
    containsStr litInstance "\x7b instance_id \x7d".data = true ∧
      fix_handler "\x7b instance_id \x7d".data " ".data "\n          ".data
          "const r = await client.getBoards(board_id);".data =
        mkHandlerFull "\x7b instance_id \x7d".data " ".data "\n          ".data
          "const r = await client.getBoards(board_id);".data :=
  ⟨by decide, c9_instance_substring_skip _ _ _ _ (by decide)⟩

theorem mem_takeWhile_prop {p : Char → Bool} :
    ∀ (l : Str) (x : Char), x ∈ l.takeWhile p → p x = true := by
  intro l
  induction l with
  | nil => intro x hx; simp [List.takeWhile] at hx
  | cons a as ih =>
    intro x hx
    by_cases hpa : p a = true
    · simp only [List.takeWhile_cons, hpa, if_true, List.mem_cons] at hx
      rcases hx with rfl | hx
      · exact hpa
      · exact ih x hx
    · simp only [List.takeWhile_cons, Bool.not_eq_true] at hx
      rw [Bool.not_eq_true] at hpa
      simp [hpa] at hx

theorem cs_single_false {ch : Char} :
    ∀ (b : Str), (∀ x ∈ b, x ≠ ch) → containsStr [ch] b = false := by
  intro b
  induction b with
  | nil => intro _; rfl
  | cons a as ih =>
    intro hx
    simp only [containsStr, Bool.or_eq_false_iff]
    constructor
    · simp [pfx, Ne.symm (hx a (by simp))]
    · exact ih (fun x hx2 => hx x (by simp [hx2]))

/-- The body captured by the `export const …Schema = z.object(\{…\});`
pattern never contains a closing brace: `[^\x7d]*` cannot cross one. -/
theorem matchR3At_body_no_brace {s n b r : Str} (h : matchR3At s = some (n, b, r)) :
    containsStr "\x7d".data b = false := by
  unfold matchR3At at h
  cases h1 : dropLit litExportConst s with
  | none => rw [h1] at h; cases h
  | some s1 =>
    rw [h1] at h
    dsimp only at h
    by_cases h2 : sfxB litSchemaSuffix (s1.takeWhile isWordChar) ∧
        7 ≤ (s1.takeWhile isWordChar).length
    · rw [if_pos h2] at h
      cases h3 : dropLit litEqZObj (s1.drop (s1.takeWhile isWordChar).length) with
      | none => rw [h3] at h; cases h
      | some s2 =>
        rw [h3] at h
        dsimp only at h
        cases h4 : dropLit closeTok (s2.drop (s2.takeWhile isNotCloseBrace).length) with
        | none => rw [h4] at h; cases h
        | some rest =>
          rw [h4] at h
          dsimp only at h
          have hb : b = s2.takeWhile isNotCloseBrace := by cases h; rfl
          rw [hb]
          have hsingle : "\x7d".data = ['\x7d'] := rfl
          rw [hsingle]
          apply cs_single_false
          intro x hx hxe
          have hw := mem_takeWhile_prop s2 x hx
          rw [hxe] at hw
          simp [isNotCloseBrace] at hw
    · rw [if_neg h2] at h; cases h

/-- Claim C10 counterexample: `c10NestedZ` is a schema declaration whose
body contains a closing brace before the own terminator of the declaration (a nested
`z.object` field), yet the depth-counting updater does NOT inject into
it: the nested `z.object(\x7b` line resets the tracker, so the
declaration is left unchanged, contradicting the claim that the
depth-counting updater injects into every such declaration. -/
theorem c10_counterexample :
    add_instance_to_schema c10NestedZ = c10NestedZ ∧
      containsStr marker3 c10NestedZ = false := by
  exact ⟨by decide, by decide⟩

/-- Claim C10 amended: the regex-driven updater never matches a
declaration whose body contains a closing brace (every captured body is
brace-free), and so leaves such declarations unmodified; the
depth-counting updater injects into declarations with nested plain-object
delimiters (e.g. `c10NestedPlain`), though not into ones whose nested
field itself opens a `z.object`; the two implementations are therefore
not extensionally equal on inputs with nested delimiters. -/
theorem c10_amended_regex_vs_depth :
    (∀ s n b r, matchR3At s = some (n, b, r) →
      containsStr "\x7d".data b = false) ∧
    regexSchemaUpdate c10NestedPlain = c10NestedPlain ∧
    add_instance_to_schema c10NestedPlain ≠ regexSchemaUpdate c10NestedPlain := by
  refine ⟨?_, by decide, by decide⟩
  intro s n b r h
  exact matchR3At_body_no_brace h

theorem c10_amended_witness :
    matchR3At "export const fooSchema = z.object(\x7ba: 1\x7d);".data =
        some ("fooSchema".data, "a: 1".data, []) ∧
      containsStr "\x7d".data "a: 1".data = false :=
  ⟨by decide,
    c10_amended_regex_vs_depth.1 "export const fooSchema = z.object(\x7ba: 1\x7d);".data
      "fooSchema".data "a: 1".data [] (by decide)⟩
